import Mathlib

/-!
# sml_server_time: the frame callback and the serial-port opener

A shallow embedding of `src/sml_server_time/sml_server_time.c`.

* Pointers that the C code dereferences or tests are `Option`s; reading through
  an absent one, or indexing an octet string past its end, is the outcome
  `undefined`.
* A `NULL`-terminated linked list (`sml_list`, walked through `next`) is a `List`.
* `stdout` and `stderr` are strings that grow by appending; `exit` ends the run
  with the streams as they are at that point.
* `double` is IEEE 754 binary64 with round-to-nearest-even, restricted to the
  finite normal range (an 8-bit scaler and a 64-bit integer never leave it).
* Functions of libsml, libc, libm and `unit.h` whose text is not part of the file
  are either parameters (`Env`, `Platform`) or modelled from their documented
  behaviour, and are marked so.
-/

namespace SmlServerTime

/-! ## binary64 arithmetic -/

/-- A finite binary64 number: `(-1)^neg * mant * 2^exp`. -/
structure Dbl where
  neg : Bool
  mant : Nat
  exp : Int
deriving DecidableEq

/-- Number of binary digits of `n`, by halving (`fuel` bounds the number of steps). -/
def nbitsAux : Nat → Nat → Nat
  | 0, _ => 0
  | fuel + 1, n => if n = 0 then 0 else nbitsAux fuel (n / 2) + 1

/-- Number of binary digits of `n` (`0` for `0`). -/
def nbits (n : Nat) : Nat := nbitsAux n n

/-- The integer nearest to `num / den`, ties going to the even neighbour. -/
def rneDiv (num den : Nat) : Nat :=
  let q := num / den
  let r := num % den
  if 2 * r < den then q
  else if 2 * r = den then (if q % 2 = 0 then q else q + 1)
  else q + 1

/-- Round the non-negative rational `num / den` to a 53-bit significand, nearest-even:
the exponent `e` is chosen with `2^52 ≤ (num/den) / 2^e < 2^53`, then the
significand is the nearest integer. -/
def roundRat (neg : Bool) (num den : Nat) : Dbl :=
  if num = 0 then ⟨neg, 0, 0⟩
  else
    let e0 : Int := (nbits num : Int) - (nbits den : Int) - 53
    let N := if e0 < 0 then num * 2 ^ (-e0).toNat else num
    let D := if e0 < 0 then den else den * 2 ^ e0.toNat
    if N < 2 ^ 53 * D then ⟨neg, rneDiv N D, e0⟩ else ⟨neg, rneDiv N (2 * D), e0 + 1⟩

/-- Conversion of a C integer to `double`. -/
def Dbl.ofInt (v : Int) : Dbl := roundRat (decide (v < 0)) v.natAbs 1

/-- The `double` product `a * b`: the exact product, rounded once. -/
def Dbl.mul (a b : Dbl) : Dbl :=
  let m := a.mant * b.mant
  let e := a.exp + b.exp
  if e < 0 then roundRat (xor a.neg b.neg) m (2 ^ (-e).toNat)
  else roundRat (xor a.neg b.neg) (m * 2 ^ e.toNat) 1

/-- The `double` nearest to `10^s`: what a correctly rounding libm returns for `pow(10, s)`
(exact whenever `10^s` is a `double`, in particular `1` for `s = 0`). -/
def pow10_nearest (s : Int) : Dbl :=
  if s < 0 then roundRat false 1 (10 ^ (-s).toNat) else roundRat false (10 ^ s.toNat) 1

/-- Exactly `k` decimal digits: the `k` lowest digits of `n`, most significant first. -/
def fracDigits : Nat → Nat → List Char
  | 0, _ => []
  | k + 1, n => Nat.digitChar (n / 10 ^ k % 10) :: fracDigits k n

/-- Fixed-point text of `n / 10^prec`: the integer part, then (when `prec > 0`) a point
and exactly `prec` digits. -/
def fixedText (neg : Bool) (prec n : Nat) : String :=
  (if neg then "-" else "") ++ toString (n / 10 ^ prec) ++
    (if prec = 0 then "" else "." ++ String.mk (fracDigits prec n))

/-- The integer `x * 10^prec` rounded to nearest (ties to even), for the magnitude of `x`. -/
def scaledDigits (prec : Nat) (x : Dbl) : Nat :=
  if x.exp < 0 then rneDiv (x.mant * 10 ^ prec) (2 ^ (-x.exp).toNat)
  else x.mant * 2 ^ x.exp.toNat * 10 ^ prec

/-- The libc conversion `printf("%.*f", prec, x)`: the exact binary value of `x`, correctly
rounded to `prec` fractional digits. -/
def printf_f (prec : Nat) (x : Dbl) : String :=
  fixedText x.neg prec (scaledDigits prec x)

/-- The magnitude of a `Dbl` as a rational number. -/
def Dbl.toRat (x : Dbl) : ℚ := (x.mant : ℚ) * (2 : ℚ) ^ x.exp

/-! ## libsml data, as far as the callback reads it -/

/-- The libsml `octet_string`: `len` bytes at `str`. -/
structure octet_string where
  str : List UInt8
deriving DecidableEq

/-- The libsml `sml_value`: the type byte and the `data` union. `data.boolean` is a pointer
that the callback only tests against `NULL`; `bytes` and `num` are what the conversions
`sml_value_to_strhex` and `sml_value_to_double` read behind `data.bytes` and
`data.int8 … data.uint64`. -/
structure sml_value where
  type : Nat
  boolean : Option Nat
  bytes : octet_string
  num : Int
deriving DecidableEq

/-- The libsml `sml_time`, of which only `data.sec_index` (a pointer to `u32`) is read. -/
structure sml_time where
  sec_index : Option Nat
deriving DecidableEq

/-- One node of the libsml `sml_list`; the `next` pointer is the tail of the `List` the node
sits in. `unit` points to a `u8`, `scaler` to an `i8`. -/
structure sml_list where
  obj_name : Option octet_string
  unit : Option Nat
  scaler : Option Int
  value : Option sml_value
deriving DecidableEq

/-- The libsml `sml_get_list_response`, of which `val_list` and `act_sensor_time` are read. -/
structure sml_get_list_response where
  val_list : List sml_list
  act_sensor_time : Option sml_time
deriving DecidableEq

/-- The libsml `sml_message_body`: `tag` points to a `u32`; `data` is read as a
`sml_get_list_response` when the tag says so. -/
structure sml_message_body where
  tag : Option Nat
  data : Option sml_get_list_response
deriving DecidableEq

/-- The libsml `sml_message`, of which only `message_body` is read. -/
structure sml_message where
  message_body : Option sml_message_body
deriving DecidableEq

/-- The libsml `sml_file`: `messages_len` messages at `messages`. -/
structure sml_file where
  messages : List sml_message
deriving DecidableEq

def SML_TYPE_FIELD : Nat := 0x70
def SML_TYPE_OCTET_STRING : Nat := 0x00
def SML_TYPE_BOOLEAN : Nat := 0x40
def SML_TYPE_INTEGER : Nat := 0x50
def SML_TYPE_UNSIGNED : Nat := 0x60
def SML_MESSAGE_GET_LIST_RESPONSE : Nat := 0x00000701

/-- The collaborators of the callback whose code is outside the file: the libsml parser,
the libsml dump used in verbose mode, the libsml hex conversion, the `unit.h` lookup
(`none` is its `NULL`) and the libm call `pow(10, s)`. -/
structure Env where
  sml_file_parse : List UInt8 → sml_file
  sml_file_print : sml_file → String
  sml_value_to_strhex : sml_value → String
  dlms_get_unit : Nat → Option String
  pow10 : Int → Dbl

/-- Modelled from the spec: `sml_value_to_double` (libsml) converts the integer held by the
value to a floating-point number. -/
def sml_value_to_double (value : sml_value) : Dbl := Dbl.ofInt value.num

/-! ## process streams and outcomes -/

/-- What the process has written so far. -/
structure Streams where
  stdout : String
  stderr : String
deriving DecidableEq

/-- Append to `stdout` (`printf`). -/
def Streams.print (s : Streams) (t : String) : Streams := { s with stdout := s.stdout ++ t }

/-- Append to `stderr` (`fprintf(stderr, …)`). -/
def Streams.eprint (s : Streams) (t : String) : Streams := { s with stderr := s.stderr ++ t }

/-- How a call of the callback ends. -/
inductive Outcome where
  | undefined
  | exited (code : Nat) (s : Streams)
  | returned (s : Streams)
deriving DecidableEq

/-- The text on `stdout` when the call ends, if it is defined. -/
def Outcome.stdout? : Outcome → Option String
  | .undefined => none
  | .exited _ s => some s.stdout
  | .returned s => some s.stdout

/-! ## transport_receiver -/

/-- The `"%d-%d:%d.%d.%d*%d#"` part of the three `printf` calls, reading
`entry->obj_name->str[0..5]`. -/
def obis_code (obj_name : Option octet_string) : Option String :=
  match obj_name with
  | none => none
  | some name =>
    match name.str[0]?, name.str[1]?, name.str[2]?, name.str[3]?, name.str[4]?, name.str[5]? with
    | some a, some b, some c, some d, some e, some f =>
      some (toString a.toNat ++ "-" ++ toString b.toNat ++ ":" ++ toString c.toNat ++ "." ++
        toString d.toNat ++ "." ++ toString e.toNat ++ "*" ++ toString f.toNat ++ "#")
    | _, _, _, _, _, _ => none

/-- Lines 128-133 and the `%.*f` of line 134: the scaled value as text. -/
def scaled_number (env : Env) (value : sml_value) (scaler_ptr : Option Int) : String :=
  let dvalue := sml_value_to_double value
  let scaler : Int := match scaler_ptr with
    | some sc => sc
    | none => 0
  let prec : Int := if -scaler < 0 then 0 else -scaler
  let dvalue := dvalue.mul (env.pow10 scaler)
  printf_f prec.toNat dvalue

/-- The body of the `for (entry = …)` loop, lines 108-145, for one entry. -/
def entry_step (env : Env) (entry : sml_list) (s : Streams) : Option Streams :=
  match entry.value with
  | none =>
    some (s.eprint "Error in data stream. entry->value should not be NULL. Skipping this.\n")
  | some value =>
    if value.type = SML_TYPE_OCTET_STRING then
      match obis_code entry.obj_name with
      | none => none
      | some p => some (s.print (p ++ env.sml_value_to_strhex value ++ "#\n"))
    else if value.type = SML_TYPE_BOOLEAN then
      match obis_code entry.obj_name with
      | none => none
      | some p => some (s.print (p ++ (if value.boolean.isSome then "true" else "false") ++ "#\n"))
    else if value.type &&& SML_TYPE_FIELD = SML_TYPE_INTEGER ∨
        value.type &&& SML_TYPE_FIELD = SML_TYPE_UNSIGNED then
      match obis_code entry.obj_name with
      | none => none
      | some p =>
        let s1 := s.print (p ++ scaled_number env value entry.scaler ++ "#")
        let s2 := match entry.unit with
          | none => s1
          | some u =>
            match env.dlms_get_unit (u % 256) with
            | none => s1
            | some name => s1.print name
        some (s2.print "\n")
    else some s

/-- The `for (entry = body->val_list; entry != NULL; entry = entry->next)` loop. -/
def val_list_loop (env : Env) : List sml_list → Streams → Option Streams
  | [], s => some s
  | entry :: next, s =>
    match entry_step env entry s with
    | none => none
    | some s1 => val_list_loop env next s1

/-- The body of the `for (i = 0; …)` loop, lines 102-153, for one message. -/
def message_step (env : Env) (sflag : Bool) (message : sml_message) (s : Streams) : Outcome :=
  match message.message_body with
  | none => .undefined
  | some message_body =>
    match message_body.tag with
    | none => .undefined
    | some tag =>
      if tag = SML_MESSAGE_GET_LIST_RESPONSE then
        match message_body.data with
        | none => .undefined
        | some body =>
          match val_list_loop env body.val_list s with
          | none => .undefined
          | some s1 =>
            match body.act_sensor_time with
            | none => .undefined
            | some t =>
              match t.sec_index with
              | none => .undefined
              | some sec_index =>
                let s2 := s1.print ("act_sensor_time#" ++ toString sec_index ++ "#\n")
                if sflag then .exited 0 s2 else .returned s2
      else .returned s

/-- The `for (i = 0; i < file->messages_len; i++)` loop over `file->messages`. -/
def messages_loop (env : Env) (sflag : Bool) : List sml_message → Streams → Outcome
  | [], s => .returned s
  | message :: rest, s =>
    match message_step env sflag message s with
    | .returned s1 => messages_loop env sflag rest s1
    | .exited code s1 => .exited code s1
    | .undefined => .undefined

/-- The bytes `sml_file_parse(buffer + 8, buffer_len - 16)` is given: `buffer_len - 16` is
computed in `size_t` (64 bits, wrapping around below zero); the parser may read them only
inside the buffer. -/
def parser_input (buffer : List UInt8) (buffer_len : Nat) : Option (List UInt8) :=
  let len := if 16 ≤ buffer_len then buffer_len - 16 else buffer_len + 2 ^ 64 - 16
  if 8 + len ≤ buffer.length then some ((buffer.drop 8).take len) else none

/-- Lines 94-157: everything after the parse. -/
def transport_receiver_file (env : Env) (sflag vflag : Bool) (file : sml_file) (s : Streams) :
    Outcome :=
  let s1 := if vflag then s.print (env.sml_file_print file) else s
  let s2 := if vflag then s1.print ("OBIS data #" ++ toString file.messages.length ++ "\n") else s1
  messages_loop env sflag file.messages s2

/-- The callback `transport_receiver(buffer, buffer_len)`, with the globals `sflag` and
`vflag` as arguments. -/
def transport_receiver (env : Env) (sflag vflag : Bool) (buffer : List UInt8) (buffer_len : Nat)
    (s : Streams) : Outcome :=
  match parser_input buffer buffer_len with
  | none => .undefined
  | some payload => transport_receiver_file env sflag vflag (env.sml_file_parse payload) s

/-! ## serial_port_open -/

/-- The C `struct termios`, as far as the function touches it. -/
structure termios where
  c_iflag : Nat
  c_oflag : Nat
  c_cflag : Nat
  c_lflag : Nat
  c_ispeed : Nat
  c_ospeed : Nat
deriving DecidableEq

/-- The constants of `<fcntl.h>`, `<termios.h>` and `<sys/ioctl.h>` the function names, and
the two libc speed setters. -/
structure Platform where
  O_RDWR : Nat
  O_NOCTTY : Nat
  O_NONBLOCK : Nat
  TIOCMGET : Nat
  TIOCMSET : Nat
  TIOCM_RTS : Nat
  IGNBRK : Nat
  BRKINT : Nat
  PARMRK : Nat
  ISTRIP : Nat
  INLCR : Nat
  IGNCR : Nat
  ICRNL : Nat
  IXON : Nat
  OPOST : Nat
  ECHO : Nat
  ECHONL : Nat
  ICANON : Nat
  ISIG : Nat
  IEXTEN : Nat
  CSIZE : Nat
  PARENB : Nat
  PARODD : Nat
  CSTOPB : Nat
  CS8 : Nat
  B9600 : Nat
  TCSANOW : Nat
  cfsetispeed : termios → Nat → termios
  cfsetospeed : termios → Nat → termios

/-- What the operating system answers to the calls of `serial_port_open`. -/
structure Os where
  /-- The result of `open(path, flags)`: a descriptor, or a negative number on failure. -/
  sys_open : String → Nat → Int
  /-- The text of `strerror(errno)` after a failed `open(path, …)`. -/
  strerror_errno : String → String
  /-- The content of `bits` after `ioctl(fd, TIOCMGET, &bits)`. -/
  tiocmget : Int → Nat
  /-- The content of `config` after `tcgetattr(fd, &config)`. -/
  tcgetattr : Int → termios → termios

/-- A call on the operating system that touches a device. -/
inductive DeviceCall where
  | sys_open (path : String) (flags : Nat)
  | ioctl (fd : Int) (request : Nat) (bits : Option Nat)
  | tcgetattr (fd : Int)
  | tcsetattr (fd : Int) (optional_actions : Nat) (config : termios)
deriving DecidableEq

/-- What a call of `serial_port_open` leaves behind: the returned descriptor, the device
calls it made in order, and what it wrote to `stderr`. -/
structure OpenResult where
  ret : Int
  calls : List DeviceCall
  stderr : String
deriving DecidableEq

/-- The C statement `x &= ~mask` on a 32-bit flag word. -/
def clear_bits (x mask : Nat) : Nat := x &&& (0xFFFFFFFF ^^^ mask)

/-- The function `serial_port_open(device)`, lines 46-85. -/
def serial_port_open (pf : Platform) (os : Os) (device : String) : OpenResult :=
  let config : termios := ⟨0, 0, 0, 0, 0, 0⟩
  if device = "-" then ⟨0, [], ""⟩
  else
    let flags := pf.O_RDWR ||| pf.O_NOCTTY ||| pf.O_NONBLOCK
    let fd := os.sys_open device flags
    if fd < 0 then
      ⟨-1, [.sys_open device flags],
        "error: open(" ++ device ++ "): " ++ os.strerror_errno device ++ "\n"⟩
    else
      let bits := os.tiocmget fd
      let bits := bits ||| pf.TIOCM_RTS
      let config := os.tcgetattr fd config
      let iclear := pf.IGNBRK ||| pf.BRKINT ||| pf.PARMRK ||| pf.ISTRIP ||| pf.INLCR |||
        pf.IGNCR ||| pf.ICRNL ||| pf.IXON
      let config := { config with c_iflag := clear_bits config.c_iflag iclear }
      let config := { config with c_oflag := clear_bits config.c_oflag pf.OPOST }
      let lclear := pf.ECHO ||| pf.ECHONL ||| pf.ICANON ||| pf.ISIG ||| pf.IEXTEN
      let config := { config with c_lflag := clear_bits config.c_lflag lclear }
      let cclear := pf.CSIZE ||| pf.PARENB ||| pf.PARODD ||| pf.CSTOPB
      let config := { config with c_cflag := clear_bits config.c_cflag cclear }
      let config := { config with c_cflag := config.c_cflag ||| pf.CS8 }
      let config := pf.cfsetispeed config pf.B9600
      let config := pf.cfsetospeed config pf.B9600
      ⟨fd, [.sys_open device flags, .ioctl fd pf.TIOCMGET none, .ioctl fd pf.TIOCMSET (some bits),
        .tcgetattr fd, .tcsetattr fd pf.TCSANOW config], ""⟩

/-- Whether a device call configures a device (anything but `open`). -/
def DeviceCall.configures : DeviceCall → Bool
  | .sys_open _ _ => false
  | _ => true

/-! ## concrete inputs used to run the model -/

/-- The Linux values of the platform constants; the speed setters store the speed. -/
def linux : Platform where
  O_RDWR := 0o2
  O_NOCTTY := 0o400
  O_NONBLOCK := 0o4000
  TIOCMGET := 0x5415
  TIOCMSET := 0x5418
  TIOCM_RTS := 0x004
  IGNBRK := 0o1
  BRKINT := 0o2
  PARMRK := 0o10
  ISTRIP := 0o40
  INLCR := 0o100
  IGNCR := 0o200
  ICRNL := 0o400
  IXON := 0o2000
  OPOST := 0o1
  ECHO := 0o10
  ECHONL := 0o100
  ICANON := 0o2
  ISIG := 0o1
  IEXTEN := 0o100000
  CSIZE := 0o60
  PARENB := 0o400
  PARODD := 0o1000
  CSTOPB := 0o100
  CS8 := 0o60
  B9600 := 0o15
  TCSANOW := 0
  cfsetispeed := fun c speed => { c with c_ispeed := speed }
  cfsetospeed := fun c speed => { c with c_ospeed := speed }

/-- An operating system on which only `/dev/ttyUSB0` can be opened (as descriptor 3). -/
def demoOs : Os where
  sys_open := fun path _ => if path = "/dev/ttyUSB0" then 3 else -1
  strerror_errno := fun _ => "No such file or directory"
  tiocmget := fun _ => 0
  tcgetattr := fun _ c => c

/-- An entry with the given object name, value, scaler and unit. -/
def demoEntry (name : List UInt8) (value : Option sml_value) (scaler : Option Int)
    (unit : Option Nat) : sml_list :=
  { obj_name := some ⟨name⟩, unit := unit, scaler := scaler, value := value }

/-- An integer value of the given type byte. -/
def intValue (type : Nat) (v : Int) : sml_value :=
  { type := type, boolean := none, bytes := ⟨[]⟩, num := v }

/-- A measurement-list response message. -/
def listResponse (entries : List sml_list) (sec_index : Nat) : sml_message :=
  { message_body := some
      { tag := some SML_MESSAGE_GET_LIST_RESPONSE,
        data := some { val_list := entries, act_sensor_time := some ⟨some sec_index⟩ } } }

/-- A message of another kind (0x0101, an open response), whose data is not a list response. -/
def otherMessage : sml_message :=
  { message_body := some { tag := some 0x0101, data := none } }

/-- The OBIS code 1-0:1.8.0*255. -/
def obis180 : List UInt8 := [1, 0, 1, 8, 0, 255]

/-- An unsigned 32-bit entry 1-0:1.8.0*255 with raw value 12345, scaler -2 and unit code 30. -/
def kwhEntry : sml_list :=
  demoEntry obis180 (some (intValue 0x64 12345)) (some (-2)) (some 30)

/-- An unsigned 64-bit entry 1-0:1.8.0*255 with raw value `2^53 + 1`, no scaler, no unit. -/
def bigEntry : sml_list :=
  demoEntry obis180 (some (intValue 0x68 9007199254740993)) none none

/-- The scenario of the specification: one list response with one unsigned entry
1-0:1.8.0*255, raw value 12345, scaler -2, a unit, and sensor-time counter 42. -/
def demoFile : sml_file :=
  { messages := [listResponse [kwhEntry] 42] }

/-- Collaborators for the scenario: the parser yields `demoFile` for every payload, unit
code 30 resolves to "kWh", every other code is unknown, `pow` rounds correctly. -/
def demoEnv : Env where
  sml_file_parse := fun _ => demoFile
  sml_file_print := fun _ => "(dump)\n"
  sml_value_to_strhex := fun _ => "(hex)"
  dlms_get_unit := fun c => if c = 30 then some "kWh" else none
  pow10 := pow10_nearest

/-- A boolean entry 1-0:1.8.0*255 whose `data.boolean` pointer is set. -/
def boolEntry : sml_list :=
  demoEntry obis180 (some { type := SML_TYPE_BOOLEAN, boolean := some 1, bytes := ⟨[]⟩, num := 0 })
    none none

/-- An entry whose value is absent. -/
def absentEntry : sml_list :=
  { obj_name := none, unit := none, scaler := none, value := none }

/-- An entry whose value is a list (type byte 0x70), a type the callback does not print. -/
def listTypedEntry : sml_list :=
  { obj_name := none, unit := none, scaler := none,
    value := some { type := 0x70, boolean := none, bytes := ⟨[]⟩, num := 0 } }

/-- A signed entry 1-0:1.8.0*255 with value 1234, scaler -2 and no unit. -/
def plainEntry : sml_list :=
  demoEntry obis180 (some (intValue 0x52 1234)) (some (-2)) none

/-- An unsigned entry 1-0:1.8.0*255 with value 50, scaler 1 and no unit. -/
def tenfoldEntry : sml_list :=
  demoEntry obis180 (some (intValue 0x62 50)) (some 1) none

/-- A response body with an absent-value entry between two printed ones, counter 7. -/
def mixedBody : sml_get_list_response :=
  { val_list := [plainEntry, absentEntry, boolEntry, listTypedEntry],
    act_sensor_time := some ⟨some 7⟩ }

/-- A file with a message of another kind, then two measurement-list responses. -/
def twoResponses : sml_file :=
  { messages :=
      [otherMessage,
       { message_body := some { tag := some SML_MESSAGE_GET_LIST_RESPONSE, data := some mixedBody } },
       listResponse [plainEntry] 8] }

/-- A frame of 18 bytes: header 1..8, payload 9 10, trailer 11..18. -/
def demoFrame : List UInt8 := [1, 2, 3, 4, 5, 6, 7, 8, 9, 10, 11, 12, 13, 14, 15, 16, 17, 18]

/-! ## vocabulary of the properties -/

/-- The value types for which the callback prints a line: octet string, boolean, signed
integer, unsigned integer (the tests of lines 112, 120, 126 and 127). -/
def printable (type : Nat) : Bool :=
  type == SML_TYPE_OCTET_STRING || type == SML_TYPE_BOOLEAN ||
    type &&& SML_TYPE_FIELD == SML_TYPE_INTEGER || type &&& SML_TYPE_FIELD == SML_TYPE_UNSIGNED

/-- The integer types: signed or unsigned, of any width. -/
def integer_typed (type : Nat) : Bool :=
  type &&& SML_TYPE_FIELD == SML_TYPE_INTEGER || type &&& SML_TYPE_FIELD == SML_TYPE_UNSIGNED

/-- An entry whose value, if present and printable, comes with an object name of at least
six bytes. -/
def entry_ok (entry : sml_list) : Bool :=
  match entry.value with
  | none => true
  | some value =>
    if printable value.type then
      match entry.obj_name with
      | none => false
      | some name => decide (6 ≤ name.str.length)
    else true

/-- A measurement-list response whose sensor-time field is present (with its counter) and
whose entries are all `entry_ok`. -/
def response_ok (body : sml_get_list_response) : Bool :=
  (match body.act_sensor_time with
    | some t => t.sec_index.isSome
    | none => false) && body.val_list.all entry_ok

/-- A sub-message that has a body with a tag and, when the tag is that of a
measurement-list response, a `response_ok` response. -/
def message_ok (message : sml_message) : Bool :=
  match message.message_body with
  | none => false
  | some message_body =>
    match message_body.tag with
    | none => false
    | some tag =>
      if tag = SML_MESSAGE_GET_LIST_RESPONSE then
        match message_body.data with
        | none => false
        | some body => response_ok body
      else true

/-- Whether the sub-message is tagged as a measurement-list response. -/
def is_list_response (message : sml_message) : Bool :=
  match message.message_body with
  | none => false
  | some message_body =>
    match message_body.tag with
    | none => false
    | some tag => decide (tag = SML_MESSAGE_GET_LIST_RESPONSE)

/-- Concatenation of texts, in order. -/
def concat : List String → String
  | [] => ""
  | t :: ts => t ++ concat ts

/-- The text one entry adds to `stdout` (empty when it adds nothing). -/
def entry_lines (env : Env) (entry : sml_list) : String :=
  match entry_step env entry ⟨"", ""⟩ with
  | none => ""
  | some s => s.stdout

/-- The line `act_sensor_time#<value>#` of a response. -/
def sensor_time_line (body : sml_get_list_response) : String :=
  match body.act_sensor_time with
  | none => ""
  | some t =>
    match t.sec_index with
    | none => ""
    | some sec_index => "act_sensor_time#" ++ toString sec_index ++ "#\n"

/-- The block of a sub-message as the specification words it: for a measurement-list
response the lines of its entries in list order, then its `act_sensor_time` line; nothing
for any other kind. -/
def message_block (env : Env) (message : sml_message) : String :=
  match message.message_body with
  | none => ""
  | some message_body =>
    match message_body.tag, message_body.data with
    | some tag, some body =>
      if tag = SML_MESSAGE_GET_LIST_RESPONSE then
        concat (body.val_list.map (entry_lines env)) ++ sensor_time_line body
      else ""
    | _, _ => ""

/-- The sub-message with the entries of absent value removed from its list. -/
def drop_absent (message : sml_message) : sml_message :=
  match message.message_body with
  | none => message
  | some message_body =>
    match message_body.data with
    | none => message
    | some body =>
      { message_body := some { message_body with
          data := some { body with val_list := body.val_list.filter fun e => e.value.isSome } } }

/-- The unit text of a numeric line: the resolved name, nothing when the unit code is absent
or does not resolve. -/
def unit_text (env : Env) (unit : Option Nat) : String :=
  match unit with
  | none => ""
  | some u =>
    match env.dlms_get_unit (u % 256) with
    | none => ""
    | some name => name

/-- A libm whose `pow(10, s)`, for an 8-bit `s`, is positive, within `2^-52` (relative) of
`10^s`, and exact when `10^s` is an integer of at most 53 bits. -/
def pow10_accurate (pw : Int → Dbl) : Prop :=
  ∀ s : Int, -128 ≤ s → s ≤ 127 →
    (pw s).neg = false ∧
    |(pw s).toRat - (10 : ℚ) ^ s| ≤ (10 : ℚ) ^ s / 2 ^ 52 ∧
    (0 ≤ s → 10 ^ s.toNat ≤ 2 ^ 53 → (pw s).toRat = ((10 ^ s.toNat : ℕ) : ℚ))

/-- The specification's wording of the rendered number: `v * 10^s` in fixed-point notation
with `max(0, -s)` fractional digits. -/
def decimal_fixed (v s : Int) : String :=
  if s < 0 then fixedText (decide (v < 0)) (-s).toNat v.natAbs
  else fixedText (decide (v < 0)) 0 (v.natAbs * 10 ^ s.toNat)

/-! ## lemmas -/

/-- What an entry writes does not depend on what has been written before. -/
theorem entry_step_append (env : Env) (entry : sml_list) (s : Streams) :
    entry_step env entry s =
      (entry_step env entry ⟨"", ""⟩).map
        (fun d => ⟨s.stdout ++ d.stdout, s.stderr ++ d.stderr⟩) := by
  unfold entry_step
  cases entry.value with
  | none => simp [Streams.eprint]
  | some value =>
    simp only []
    split
    · cases obis_code entry.obj_name <;> simp [Streams.print]
    · split
      · cases obis_code entry.obj_name <;> simp [Streams.print]
      · split
        · cases obis_code entry.obj_name with
          | none => simp
          | some p =>
            cases entry.unit with
            | none => simp [Streams.print, String.append_assoc]
            | some u =>
              rcases h : env.dlms_get_unit (u % 256) with _ | name <;>
                simp [h, Streams.print, String.append_assoc]
        · simp

theorem obis_code_six (a b c d e f : UInt8) (rest : List UInt8) :
    obis_code (some ⟨a :: b :: c :: d :: e :: f :: rest⟩) =
      some (toString a.toNat ++ "-" ++ toString b.toNat ++ ":" ++ toString c.toNat ++ "." ++
        toString d.toNat ++ "." ++ toString e.toNat ++ "*" ++ toString f.toNat ++ "#") := by
  simp [obis_code]

theorem obis_code_isSome (name : octet_string) (h : 6 ≤ name.str.length) :
    ∃ p, obis_code (some name) = some p := by
  obtain ⟨str⟩ := name
  match str, h with
  | a :: b :: c :: d :: e :: f :: rest, _ => exact ⟨_, obis_code_six a b c d e f rest⟩

theorem obis_code_short (name : octet_string) (h : name.str.length < 6) :
    obis_code (some name) = none := by
  obtain ⟨str⟩ := name
  match str, h with
  | [], _ => simp [obis_code]
  | [_], _ => simp [obis_code]
  | [_, _], _ => simp [obis_code]
  | [_, _, _], _ => simp [obis_code]
  | [_, _, _, _], _ => simp [obis_code]
  | [_, _, _, _, _], _ => simp [obis_code]
  | _ :: _ :: _ :: _ :: _ :: _ :: _, h => simp at h; omega

theorem obis_code_isSome_eq (obj_name : Option octet_string) :
    (obis_code obj_name).isSome =
      (match obj_name with
        | none => false
        | some name => decide (6 ≤ name.str.length)) := by
  cases obj_name with
  | none => rfl
  | some name =>
    by_cases h6 : 6 ≤ name.str.length
    · obtain ⟨p, hp⟩ := obis_code_isSome name h6
      simp [hp, h6]
    · simp [obis_code_short name (by omega), h6]

/-- An entry without a value, or with a value of a type that is not printed, never reads the
object name; a printable one always does. -/
theorem entry_step_isSome_iff (env : Env) (entry : sml_list) (s : Streams) :
    (entry_step env entry s).isSome = entry_ok entry := by
  unfold entry_step entry_ok
  cases entry.value with
  | none => simp
  | some value =>
    simp only []
    have key := obis_code_isSome_eq entry.obj_name
    by_cases h1 : value.type = SML_TYPE_OCTET_STRING
    · have hp : printable value.type = true := by simp [printable, h1]
      rw [if_pos h1, if_pos hp, ← key]
      cases obis_code entry.obj_name <;> rfl
    · by_cases h2 : value.type = SML_TYPE_BOOLEAN
      · have hp : printable value.type = true := by simp [printable, h2]
        rw [if_neg h1, if_pos h2, if_pos hp, ← key]
        cases obis_code entry.obj_name <;> rfl
      · by_cases h3 : value.type &&& SML_TYPE_FIELD = SML_TYPE_INTEGER ∨
            value.type &&& SML_TYPE_FIELD = SML_TYPE_UNSIGNED
        · have hp : printable value.type = true := by
            rcases h3 with h | h <;> simp [printable, h]
          rw [if_neg h1, if_neg h2, if_pos h3, if_pos hp, ← key]
          cases obis_code entry.obj_name <;> rfl
        · have hp : ¬ printable value.type = true := by
            push_neg at h3
            simp [printable, h1, h2, h3.1, h3.2]
          rw [if_neg h1, if_neg h2, if_neg h3, if_neg hp]
          rfl

theorem entry_step_of_ok (env : Env) (entry : sml_list) (s : Streams)
    (h : entry_ok entry = true) :
    ∃ err, entry_step env entry s = some ⟨s.stdout ++ entry_lines env entry, s.stderr ++ err⟩ := by
  have h0 := entry_step_isSome_iff env entry ⟨"", ""⟩
  rw [h] at h0
  obtain ⟨d, hd⟩ := Option.isSome_iff_exists.mp h0
  refine ⟨d.stderr, ?_⟩
  rw [entry_step_append, hd]
  simp [entry_lines, hd]

theorem entry_step_of_not_ok (env : Env) (entry : sml_list) (s : Streams)
    (h : entry_ok entry = false) : entry_step env entry s = none := by
  have h0 := entry_step_isSome_iff env entry s
  rw [h] at h0
  simpa using h0

theorem val_list_loop_of_ok (env : Env) (l : List sml_list) :
    ∀ s : Streams, l.all entry_ok = true →
      ∃ err, val_list_loop env l s =
        some ⟨s.stdout ++ concat (l.map (entry_lines env)), s.stderr ++ err⟩ := by
  induction l with
  | nil => intro s _; exact ⟨"", by simp [val_list_loop, concat]⟩
  | cons entry next ih =>
    intro s h
    simp only [List.all_cons, Bool.and_eq_true] at h
    obtain ⟨e1, h1⟩ := entry_step_of_ok env entry s h.1
    obtain ⟨e2, h2⟩ := ih ⟨s.stdout ++ entry_lines env entry, s.stderr ++ e1⟩ h.2
    refine ⟨e1 ++ e2, ?_⟩
    simp [val_list_loop, h1, h2, concat, String.append_assoc]

theorem val_list_loop_of_not_ok (env : Env) (l : List sml_list) :
    ∀ s : Streams, l.all entry_ok = false → val_list_loop env l s = none := by
  induction l with
  | nil => intro s h; simp at h
  | cons entry next ih =>
    intro s h
    simp only [val_list_loop]
    cases h1 : entry_ok entry with
    | false => rw [entry_step_of_not_ok env entry s h1]
    | true =>
      obtain ⟨e1, h2⟩ := entry_step_of_ok env entry s h1
      rw [h2]
      simp only []
      apply ih
      simpa [h1] using h

theorem message_step_of_not_ok (env : Env) (sflag : Bool) (message : sml_message) (s : Streams)
    (h : message_ok message = false) : message_step env sflag message s = .undefined := by
  obtain ⟨mb⟩ := message
  cases mb with
  | none => rfl
  | some mb =>
    obtain ⟨tag, data⟩ := mb
    cases tag with
    | none => rfl
    | some tag =>
      by_cases ht : tag = SML_MESSAGE_GET_LIST_RESPONSE
      · cases data with
        | none => simp [message_step, ht]
        | some body =>
          simp only [message_ok, ht, if_true, response_ok, Bool.and_eq_false_iff] at h
          simp only [message_step, ht, if_true]
          cases hl : body.val_list.all entry_ok with
          | false => rw [val_list_loop_of_not_ok env _ s hl]
          | true =>
            obtain ⟨err, hv⟩ := val_list_loop_of_ok env body.val_list s hl
            rw [hv]
            rcases h with h | h
            · cases ha : body.act_sensor_time with
              | none => rfl
              | some t =>
                rw [ha] at h
                cases hs : t.sec_index with
                | none => simp [hs]
                | some n => simp [hs] at h
            · rw [hl] at h; cases h
      · simp [message_ok, ht] at h

theorem message_step_of_ok (env : Env) (sflag : Bool) (message : sml_message) (s : Streams)
    (h : message_ok message = true) :
    ∃ err, message_step env sflag message s =
      (if sflag && is_list_response message
        then .exited 0 ⟨s.stdout ++ message_block env message, s.stderr ++ err⟩
        else .returned ⟨s.stdout ++ message_block env message, s.stderr ++ err⟩) := by
  obtain ⟨mb⟩ := message
  cases mb with
  | none => simp [message_ok] at h
  | some mb =>
    obtain ⟨tag, data⟩ := mb
    cases tag with
    | none => simp [message_ok] at h
    | some tag =>
      by_cases ht : tag = SML_MESSAGE_GET_LIST_RESPONSE
      · cases data with
        | none => simp [message_ok, ht] at h
        | some body =>
          simp only [message_ok, ht, if_true, response_ok, Bool.and_eq_true] at h
          obtain ⟨hst, hl⟩ := h
          obtain ⟨err, hv⟩ := val_list_loop_of_ok env body.val_list s hl
          refine ⟨err, ?_⟩
          cases ha : body.act_sensor_time with
          | none => simp [ha] at hst
          | some t =>
            rw [ha] at hst
            cases hs : t.sec_index with
            | none => simp [hs] at hst
            | some n =>
              cases sflag <;>
                simp [message_step, ht, hv, ha, hs, is_list_response, message_block,
                  sensor_time_line, Streams.print, String.append_assoc]
      · refine ⟨"", ?_⟩
        cases data <;> simp [message_step, ht, is_list_response, message_block]

theorem messages_loop_continuous (env : Env) (l : List sml_message) :
    ∀ s : Streams, l.all message_ok = true →
      ∃ err, messages_loop env false l s =
        .returned ⟨s.stdout ++ concat (l.map (message_block env)), s.stderr ++ err⟩ := by
  induction l with
  | nil => intro s _; exact ⟨"", by simp [messages_loop, concat]⟩
  | cons message rest ih =>
    intro s h
    simp only [List.all_cons, Bool.and_eq_true] at h
    obtain ⟨e1, h1⟩ := message_step_of_ok env false message s h.1
    obtain ⟨e2, h2⟩ := ih ⟨s.stdout ++ message_block env message, s.stderr ++ e1⟩ h.2
    refine ⟨e1 ++ e2, ?_⟩
    simp only [Bool.false_and] at h1
    simp [messages_loop, h1, h2, concat, String.append_assoc]

theorem messages_loop_defined (env : Env) (sflag : Bool) (l : List sml_message) :
    ∀ s : Streams, l.all message_ok = true → messages_loop env sflag l s ≠ .undefined := by
  induction l with
  | nil => intro s _; simp [messages_loop]
  | cons message rest ih =>
    intro s h
    simp only [List.all_cons, Bool.and_eq_true] at h
    obtain ⟨e1, h1⟩ := message_step_of_ok env sflag message s h.1
    simp only [messages_loop, h1]
    by_cases hc : (sflag && is_list_response message) = true
    · simp [hc]
    · simpa [hc] using ih _ h.2

theorem messages_loop_undefined (env : Env) (l : List sml_message) :
    ∀ s : Streams, l.all message_ok = false → messages_loop env false l s = .undefined := by
  induction l with
  | nil => intro s h; simp at h
  | cons message rest ih =>
    intro s h
    cases h1 : message_ok message with
    | false => simp [messages_loop, message_step_of_not_ok env false message s h1]
    | true =>
      obtain ⟨e1, h2⟩ := message_step_of_ok env false message s h1
      simp only [Bool.false_and] at h2
      simp only [messages_loop, h2]
      apply ih
      simpa [h1] using h

theorem messages_loop_single_shot (env : Env) (pre : List sml_message) (message : sml_message)
    (post : List sml_message) :
    ∀ s : Streams, pre.all (fun p => message_ok p && !is_list_response p) = true →
      message_ok message = true → is_list_response message = true →
      ∃ err, messages_loop env true (pre ++ message :: post) s =
        .exited 0 ⟨s.stdout ++ message_block env message, s.stderr ++ err⟩ := by
  induction pre with
  | nil =>
    intro s _ hok hlr
    obtain ⟨err, h1⟩ := message_step_of_ok env true message s hok
    exact ⟨err, by simp [messages_loop, h1, hlr]⟩
  | cons p pre ih =>
    intro s h hok hlr
    simp only [List.all_cons, Bool.and_eq_true, Bool.not_eq_true'] at h
    obtain ⟨⟨hp1, hp2⟩, hrest⟩ := h
    obtain ⟨e1, h1⟩ := message_step_of_ok env true p s hp1
    have hb : message_block env p = "" := by
      obtain ⟨mb⟩ := p
      cases mb with
      | none => rfl
      | some mb =>
        obtain ⟨tag, data⟩ := mb
        cases tag with
        | none => cases data <;> rfl
        | some tag =>
          have : ¬ tag = SML_MESSAGE_GET_LIST_RESPONSE := by simpa [is_list_response] using hp2
          cases data <;> simp [message_block, this]
    have hrest2 : pre.all (fun p => message_ok p && !is_list_response p) = true := by
      simpa [List.all_eq_true] using hrest
    obtain ⟨e2, h2⟩ := ih ⟨s.stdout, s.stderr ++ e1⟩ hrest2 hok hlr
    refine ⟨e1 ++ e2, ?_⟩
    simp [messages_loop, h1, hp2, hb, h2, String.append_assoc]

theorem entry_lines_absent (env : Env) (entry : sml_list) (h : entry.value = none) :
    entry_lines env entry = "" := by
  simp [entry_lines, entry_step, h, Streams.eprint]

theorem concat_filter_present (env : Env) (l : List sml_list) :
    concat ((l.filter fun e => e.value.isSome).map (entry_lines env)) =
      concat (l.map (entry_lines env)) := by
  induction l with
  | nil => rfl
  | cons e l ih =>
    cases h : e.value with
    | none => simp [List.filter, h, concat, ih, entry_lines_absent env e h]
    | some v => simp [List.filter, h, concat, ih]

theorem all_ok_filter (l : List sml_list) (p : sml_list → Bool) (h : l.all entry_ok = true) :
    (l.filter p).all entry_ok = true := by
  simp only [List.all_eq_true] at h ⊢
  intro e he
  exact h e (List.mem_of_mem_filter he)

theorem entry_step_printable (env : Env) (entry : sml_list) (s : Streams) (value : sml_value)
    (p : String) (hv : entry.value = some value) (hp : printable value.type = true)
    (hn : obis_code entry.obj_name = some p) :
    ∃ tail, entry_step env entry s = some ⟨s.stdout ++ p ++ tail, s.stderr⟩ := by
  unfold entry_step
  rw [hv]
  simp only [hn]
  by_cases h1 : value.type = SML_TYPE_OCTET_STRING
  · exact ⟨env.sml_value_to_strhex value ++ "#\n", by simp [h1, Streams.print, String.append_assoc]⟩
  · by_cases h2 : value.type = SML_TYPE_BOOLEAN
    · rw [if_neg h1, if_pos h2]
      exact ⟨(if value.boolean.isSome then "true" else "false") ++ "#\n",
        by simp [Streams.print, String.append_assoc]⟩
    · have h3 : value.type &&& SML_TYPE_FIELD = SML_TYPE_INTEGER ∨
          value.type &&& SML_TYPE_FIELD = SML_TYPE_UNSIGNED := by
        simpa [printable, h1, h2] using hp
      rw [if_neg h1, if_neg h2, if_pos h3]
      cases entry.unit with
      | none =>
        exact ⟨scaled_number env value entry.scaler ++ "#" ++ "\n",
          by simp [Streams.print, String.append_assoc]⟩
      | some u =>
        rcases h : env.dlms_get_unit (u % 256) with _ | name
        · exact ⟨scaled_number env value entry.scaler ++ "#" ++ "\n",
            by simp [h, Streams.print, String.append_assoc]⟩
        · exact ⟨scaled_number env value entry.scaler ++ "#" ++ name ++ "\n",
            by simp [h, Streams.print, String.append_assoc]⟩

/-! ## binary64 rounding: error bound and exactness -/

theorem nbitsAux_spec : ∀ fuel n : Nat, n ≤ fuel → 0 < n →
    2 ^ nbitsAux fuel n ≤ 2 * n ∧ n < 2 ^ nbitsAux fuel n := by
  intro fuel
  induction fuel with
  | zero => intro n h1 h2; omega
  | succ fuel ih =>
    intro n h1 h2
    have hn : n ≠ 0 := by omega
    simp only [nbitsAux, hn, if_false]
    by_cases h : n / 2 = 0
    · have : n = 1 := by omega
      subst this
      cases fuel <;> simp [nbitsAux]
    · obtain ⟨ha, hb⟩ := ih (n / 2) (by omega) (by omega)
      rw [pow_succ]
      constructor <;> omega

theorem nbits_spec (n : Nat) (h : 0 < n) : 2 ^ nbits n ≤ 2 * n ∧ n < 2 ^ nbits n :=
  nbitsAux_spec n n le_rfl h

theorem rneDiv_close (N D : Nat) (hD : 0 < D) :
    2 * (rneDiv N D * D) ≤ 2 * N + D ∧ 2 * N ≤ 2 * (rneDiv N D * D) + D := by
  have h1 := Nat.div_add_mod N D
  have h2 := Nat.mod_lt N hD
  have h3 : D * (N / D) = N / D * D := Nat.mul_comm _ _
  unfold rneDiv
  simp only []
  split
  · constructor <;> omega
  · split
    · split
      · constructor <;> omega
      · rw [Nat.add_mul]; constructor <;> omega
    · rw [Nat.add_mul]; constructor <;> omega

theorem rneDiv_eq_of_close (N D n : Nat) (h1 : 2 * (n * D) < 2 * N + D)
    (h2 : 2 * N < 2 * (n * D) + D) : rneDiv N D = n := by
  have hD : 0 < D := by
    rcases Nat.eq_zero_or_pos D with h | h
    · subst h; omega
    · exact h
  have e1 := Nat.div_add_mod N D
  have e2 := Nat.mod_lt N hD
  have e3 : D * (N / D) = N / D * D := Nat.mul_comm _ _
  have hlo : N / D ≤ n := by
    by_contra hc
    have : (n + 1) * D ≤ N / D * D := Nat.mul_le_mul_right D (by omega)
    rw [Nat.add_mul] at this
    omega
  have hhi : n ≤ N / D + 1 := by
    by_contra hc
    have : (N / D + 2) * D ≤ n * D := Nat.mul_le_mul_right D (by omega)
    rw [Nat.add_mul] at this
    omega
  unfold rneDiv
  simp only []
  rcases Nat.lt_or_ge (N / D) n with hc | hc
  · have hn : n = N / D + 1 := by omega
    subst hn
    rw [Nat.add_mul] at h1 h2
    rw [if_neg (by omega), if_neg (by omega)]
  · have hn : n = N / D := by omega
    rw [← hn] at e1 e3 ⊢
    rw [if_pos (by omega)]

theorem roundRat_cases (neg : Bool) (num den : Nat) (hnum : 0 < num) (hden : 0 < den) :
    ∃ N D : ℕ, ∃ e : ℤ, 0 < D ∧ roundRat neg num den = ⟨neg, rneDiv N D, e⟩ ∧
      (N : ℚ) / D = ((num : ℚ) / den) / (2 : ℚ) ^ e ∧ 2 ^ 52 * D ≤ N := by
  obtain ⟨hA1, hA2⟩ := nbits_spec num hnum
  obtain ⟨hB1, hB2⟩ := nbits_spec den hden
  have hnum0 : num ≠ 0 := by omega
  have hdenq : (den : ℚ) ≠ 0 := by exact_mod_cast (by omega : den ≠ 0)
  -- the first candidate
  have key : ∃ N0 D0 : ℕ, ∃ e0 : ℤ, 0 < D0 ∧
      roundRat neg num den =
        (if N0 < 2 ^ 53 * D0 then ⟨neg, rneDiv N0 D0, e0⟩ else ⟨neg, rneDiv N0 (2 * D0), e0 + 1⟩) ∧
      (N0 : ℚ) / D0 = ((num : ℚ) / den) / (2 : ℚ) ^ e0 ∧ 2 ^ 52 * D0 ≤ N0 := by
    by_cases he : ((nbits num : Int) - (nbits den : Int) - 53) < 0
    · obtain ⟨k, hk⟩ : ∃ k : ℕ, (k : ℤ) = -((nbits num : Int) - (nbits den : Int) - 53) :=
        ⟨(-((nbits num : Int) - (nbits den : Int) - 53)).toNat, Int.toNat_of_nonneg (by omega)⟩
      refine ⟨num * 2 ^ k, den, (nbits num : Int) - (nbits den : Int) - 53, hden, ?_, ?_, ?_⟩
      · have hk' : (-((nbits num : Int) - (nbits den : Int) - 53)).toNat = k := by omega
        simp only [roundRat, hnum0, if_false, he, if_true, hk']
      · have h2 : (2 : ℚ) ^ ((nbits num : Int) - (nbits den : Int) - 53) = ((2 : ℚ) ^ k)⁻¹ := by
          rw [← zpow_natCast, ← zpow_neg, hk, neg_neg]
        rw [h2]
        push_cast
        field_simp
      · have hAk : nbits num + k = nbits den + 53 := by omega
        have h1 : 2 ^ (nbits den + 53) ≤ 2 * num * 2 ^ k := by
          rw [← hAk, pow_add]
          exact Nat.mul_le_mul_right _ hA1
        have h2 : 2 ^ 53 * den < 2 ^ (nbits den + 53) := by
          rw [pow_add, Nat.mul_comm]
          exact Nat.mul_lt_mul_of_pos_right hB2 (by positivity)
        have h3 : 2 * num * 2 ^ k = 2 * (num * 2 ^ k) := by ring
        omega
    · obtain ⟨k, hk⟩ : ∃ k : ℕ, (k : ℤ) = ((nbits num : Int) - (nbits den : Int) - 53) :=
        ⟨((nbits num : Int) - (nbits den : Int) - 53).toNat, Int.toNat_of_nonneg (by omega)⟩
      refine ⟨num, den * 2 ^ k, (nbits num : Int) - (nbits den : Int) - 53, by positivity, ?_, ?_, ?_⟩
      · have hk' : ((nbits num : Int) - (nbits den : Int) - 53).toNat = k := by omega
        simp only [roundRat, hnum0, if_false, he, hk']
      · rw [← hk, zpow_natCast]
        push_cast
        field_simp
      · have hAk : nbits num = nbits den + 53 + k := by omega
        have h2 : 2 ^ 53 * (den * 2 ^ k) < 2 ^ (nbits den + 53 + k) := by
          have : 2 ^ (nbits den + 53 + k) = 2 ^ 53 * (2 ^ nbits den * 2 ^ k) := by ring
          rw [this]
          apply Nat.mul_lt_mul_of_pos_left _ (by positivity)
          exact Nat.mul_lt_mul_of_pos_right hB2 (by positivity)
        rw [← hAk] at h2
        omega
  obtain ⟨N0, D0, e0, hD0, hr, hq, hb⟩ := key
  by_cases hc : N0 < 2 ^ 53 * D0
  · exact ⟨N0, D0, e0, hD0, by rw [hr, if_pos hc], hq, hb⟩
  · refine ⟨N0, 2 * D0, e0 + 1, by omega, by rw [hr, if_neg hc], ?_, by omega⟩
    rw [zpow_add_one₀ (by norm_num : (2 : ℚ) ≠ 0),
      show ((2 * D0 : ℕ) : ℚ) = (D0 : ℚ) * 2 by push_cast; ring, ← div_div, hq, div_div]

theorem rneDiv_close_rat (N D : Nat) (hD : 0 < D) :
    |(rneDiv N D : ℚ) - (N : ℚ) / D| ≤ 1 / 2 := by
  obtain ⟨h1, h2⟩ := rneDiv_close N D hD
  have hDq : (0 : ℚ) < D := by exact_mod_cast hD
  have h1q : (2 : ℚ) * (rneDiv N D * D) ≤ 2 * N + D := by exact_mod_cast h1
  have h2q : (2 : ℚ) * N ≤ 2 * (rneDiv N D * D) + D := by exact_mod_cast h2
  have hx : (N : ℚ) / D * D = N := div_mul_cancel₀ _ hDq.ne'
  have ha : (N : ℚ) / D ≤ rneDiv N D + 1 / 2 := by
    apply le_of_mul_le_mul_right _ hDq
    rw [hx]
    linarith
  have hb : (rneDiv N D : ℚ) - 1 / 2 ≤ (N : ℚ) / D := by
    apply le_of_mul_le_mul_right _ hDq
    rw [hx]
    linarith
  rw [abs_le]
  constructor <;> linarith

theorem rneDiv_eq_of_close_rat (N D n : Nat) (hD : 0 < D)
    (h : |(n : ℚ) - (N : ℚ) / D| < 1 / 2) : rneDiv N D = n := by
  have hDq : (0 : ℚ) < D := by exact_mod_cast hD
  rw [abs_lt] at h
  obtain ⟨h1, h2⟩ := h
  have h1' : (N : ℚ) / D < n + 1 / 2 := by linarith
  have h2' : (n : ℚ) - 1 / 2 < (N : ℚ) / D := by linarith
  rw [div_lt_iff₀ hDq] at h1'
  rw [lt_div_iff₀ hDq] at h2'
  apply rneDiv_eq_of_close
  · have : (2 : ℚ) * (n * D) < 2 * N + D := by linarith
    exact_mod_cast this
  · have : (2 : ℚ) * N < 2 * (n * D) + D := by linarith
    exact_mod_cast this

theorem roundRat_neg (neg : Bool) (num den : Nat) : (roundRat neg num den).neg = neg := by
  unfold roundRat
  simp only []
  split_ifs <;> rfl

/-- Rounding to 53 bits moves a value by at most its `2^-53`-th part. -/
theorem roundRat_error (neg : Bool) (num den : Nat) (hden : 0 < den) :
    |(roundRat neg num den).toRat - (num : ℚ) / den| ≤ (num : ℚ) / den / 2 ^ 53 := by
  rcases Nat.eq_zero_or_pos num with h0 | hnum
  · subst h0
    simp [roundRat, Dbl.toRat]
  obtain ⟨N, D, e, hD, hr, hq, hb⟩ := roundRat_cases neg num den hnum hden
  have hDq : (0 : ℚ) < D := by exact_mod_cast hD
  have he : (0 : ℚ) < (2 : ℚ) ^ e := zpow_pos (by norm_num) e
  have hclose := rneDiv_close_rat N D hD
  have hlow : (2 : ℚ) ^ 52 ≤ (N : ℚ) / D := by
    rw [le_div_iff₀ hDq]
    exact_mod_cast hb
  set q : ℚ := (num : ℚ) / den with hqdef
  have hq2 : q = (N : ℚ) / D * 2 ^ e := by
    rw [hq]
    field_simp
  rw [hr]
  simp only [Dbl.toRat]
  have h1 : (rneDiv N D : ℚ) * 2 ^ e - q = ((rneDiv N D : ℚ) - (N : ℚ) / D) * 2 ^ e := by
    rw [hq2]; ring
  rw [h1, abs_mul, abs_of_pos he]
  have h2 : (1 : ℚ) / 2 * 2 ^ e ≤ q / 2 ^ 53 := by
    rw [hq2, le_div_iff₀ (by positivity)]
    have : (1 : ℚ) / 2 * 2 ^ e * 2 ^ 53 = 2 ^ 52 * 2 ^ e := by ring
    rw [this]
    exact mul_le_mul_of_nonneg_right hlow he.le
  exact le_trans (mul_le_mul_of_nonneg_right hclose he.le) h2

/-- A natural number of at most 53 bits is a `double`: rounding leaves it as it is. -/
theorem roundRat_exact (neg : Bool) (num den P : Nat) (hden : 0 < den)
    (hP : (num : ℚ) / den = P) (hle : P ≤ 2 ^ 53) : (roundRat neg num den).toRat = P := by
  have hdenq : (0 : ℚ) < den := by exact_mod_cast hden
  rcases Nat.eq_zero_or_pos num with h0 | hnum
  · subst h0
    have : (P : ℚ) = 0 := by rw [← hP]; simp
    simp [roundRat, Dbl.toRat, this]
  obtain ⟨N, D, e, hD, hr, hq, hb⟩ := roundRat_cases neg num den hnum hden
  have hDq : (0 : ℚ) < D := by exact_mod_cast hD
  have he : (0 : ℚ) < (2 : ℚ) ^ e := zpow_pos (by norm_num) e
  have hlow : (2 : ℚ) ^ 52 ≤ (N : ℚ) / D := by
    rw [le_div_iff₀ hDq]
    exact_mod_cast hb
  rw [hP] at hq
  have hPq : (P : ℚ) ≤ 2 ^ 53 := by exact_mod_cast hle
  -- the scaled value is a natural number
  have hk : ∃ k : ℕ, (N : ℚ) / D = k := by
    rcases le_or_lt e 0 with hneg | hpos
    · obtain ⟨j, hj⟩ : ∃ j : ℕ, (j : ℤ) = -e := ⟨(-e).toNat, Int.toNat_of_nonneg (by omega)⟩
      refine ⟨P * 2 ^ j, ?_⟩
      have : (2 : ℚ) ^ e = ((2 : ℚ) ^ j)⁻¹ := by
        rw [← zpow_natCast, ← zpow_neg, hj, neg_neg]
      rw [hq, this]
      push_cast
      field_simp
    · have h1 : (2 : ℚ) ^ (1 : ℤ) ≤ (2 : ℚ) ^ e := zpow_le_zpow_right₀ (by norm_num) (by omega)
      have h2 : (2 : ℚ) ^ 52 * 2 ^ e ≤ P := by
        rw [hq, le_div_iff₀ he] at hlow
        exact hlow
      have h3 : (2 : ℚ) ^ e = 2 := by
        have : (2 : ℚ) ^ 52 * 2 ^ e ≤ 2 ^ 53 := le_trans h2 hPq
        have h4 : (2 : ℚ) ^ e ≤ 2 := by
          have h5 : (2 : ℚ) ^ 52 * 2 ^ e ≤ 2 ^ 52 * 2 := by linarith
          exact le_of_mul_le_mul_left h5 (by positivity)
        have h6 : (2 : ℚ) ≤ 2 ^ e := by simpa using h1
        linarith
      have h7 : (P : ℚ) = 2 ^ 53 := by
        rw [h3] at h2
        linarith
      refine ⟨2 ^ 52, ?_⟩
      rw [hq, h3, h7]
      norm_num
  obtain ⟨k, hk⟩ := hk
  have hm : rneDiv N D = k := by
    apply rneDiv_eq_of_close_rat N D k hD
    rw [hk]
    simp
  rw [hr]
  simp only [Dbl.toRat]
  rw [hm, ← hk, hq]
  field_simp

theorem ofInt_toRat (v : Int) (h : v.natAbs ≤ 2 ^ 53) : (Dbl.ofInt v).toRat = v.natAbs :=
  roundRat_exact _ v.natAbs 1 v.natAbs (by norm_num) (by simp) h

theorem mul_form (a b : Dbl) :
    ∃ num den : ℕ, 0 < den ∧ a.mul b = roundRat (xor a.neg b.neg) num den ∧
      (num : ℚ) / den = a.toRat * b.toRat := by
  have hprod : a.toRat * b.toRat = (a.mant : ℚ) * b.mant * (2 : ℚ) ^ (a.exp + b.exp) := by
    simp only [Dbl.toRat]
    rw [zpow_add₀ (by norm_num : (2 : ℚ) ≠ 0)]
    ring
  by_cases he : a.exp + b.exp < 0
  · obtain ⟨k, hk⟩ : ∃ k : ℕ, (k : ℤ) = -(a.exp + b.exp) :=
      ⟨(-(a.exp + b.exp)).toNat, Int.toNat_of_nonneg (by omega)⟩
    have hk' : (-(a.exp + b.exp)).toNat = k := by omega
    refine ⟨a.mant * b.mant, 2 ^ k, by positivity, ?_, ?_⟩
    · simp only [Dbl.mul, he, if_true, hk']
    · have : (2 : ℚ) ^ (a.exp + b.exp) = ((2 : ℚ) ^ k)⁻¹ := by
        rw [← zpow_natCast, ← zpow_neg, hk, neg_neg]
      rw [hprod, this]
      push_cast
      field_simp
  · obtain ⟨k, hk⟩ : ∃ k : ℕ, (k : ℤ) = a.exp + b.exp :=
      ⟨(a.exp + b.exp).toNat, Int.toNat_of_nonneg (by omega)⟩
    have hk' : (a.exp + b.exp).toNat = k := by omega
    refine ⟨a.mant * b.mant * 2 ^ k, 1, by norm_num, ?_, ?_⟩
    · simp only [Dbl.mul, he, if_false, hk']
    · rw [hprod, ← hk, zpow_natCast]
      push_cast
      simp

theorem mul_error (a b : Dbl) :
    |(a.mul b).toRat - a.toRat * b.toRat| ≤ a.toRat * b.toRat / 2 ^ 53 := by
  obtain ⟨num, den, hden, hm, hq⟩ := mul_form a b
  rw [hm, ← hq]
  exact roundRat_error _ num den hden

theorem mul_exact (a b : Dbl) (P : ℕ) (hP : a.toRat * b.toRat = P) (hle : P ≤ 2 ^ 53) :
    (a.mul b).toRat = P := by
  obtain ⟨num, den, hden, hm, hq⟩ := mul_form a b
  rw [hm]
  exact roundRat_exact _ num den P hden (by rw [hq, hP]) hle

theorem mul_neg (a b : Dbl) : (a.mul b).neg = xor a.neg b.neg := by
  obtain ⟨num, den, _, hm, _⟩ := mul_form a b
  rw [hm, roundRat_neg]

theorem scaledDigits_eq (prec : Nat) (x : Dbl) (n : Nat)
    (h : |x.toRat * (10 : ℚ) ^ prec - n| < 1 / 2) : scaledDigits prec x = n := by
  unfold scaledDigits
  by_cases he : x.exp < 0
  · obtain ⟨k, hk⟩ : ∃ k : ℕ, (k : ℤ) = -x.exp := ⟨(-x.exp).toNat, Int.toNat_of_nonneg (by omega)⟩
    have hk' : (-x.exp).toNat = k := by omega
    rw [if_pos he, hk']
    apply rneDiv_eq_of_close_rat _ _ _ (by positivity)
    have h2 : (2 : ℚ) ^ x.exp = ((2 : ℚ) ^ k)⁻¹ := by
      rw [← zpow_natCast, ← zpow_neg, hk, neg_neg]
    have h3 : (((x.mant * 10 ^ prec : ℕ) : ℚ)) / ((2 ^ k : ℕ) : ℚ) = x.toRat * (10 : ℚ) ^ prec := by
      simp only [Dbl.toRat]
      rw [h2]
      push_cast
      field_simp
    rw [h3, abs_sub_comm]
    exact h
  · obtain ⟨k, hk⟩ : ∃ k : ℕ, (k : ℤ) = x.exp := ⟨x.exp.toNat, Int.toNat_of_nonneg (by omega)⟩
    have hk' : x.exp.toNat = k := by omega
    rw [if_neg he, hk']
    have h3 : x.toRat * (10 : ℚ) ^ prec = ((x.mant * 2 ^ k * 10 ^ prec : ℕ) : ℚ) := by
      simp only [Dbl.toRat]
      rw [← hk, zpow_natCast]
      push_cast
      ring
    rw [h3] at h
    have h4 : |((x.mant * 2 ^ k * 10 ^ prec : ℕ) : ℤ) - (n : ℤ)| < 1 := by
      have : |(((x.mant * 2 ^ k * 10 ^ prec : ℕ) : ℤ) : ℚ) - ((n : ℤ) : ℚ)| < 1 := by
        push_cast
        push_cast at h
        linarith
      exact_mod_cast this
    have h5 := Int.abs_lt_one_iff.mp h4
    omega

theorem fracDigits_length (k n : Nat) : (fracDigits k n).length = k := by
  induction k with
  | zero => rfl
  | succ k ih => simp [fracDigits, ih]

/-- With a power within `2^-52` of `10^-k` and a raw value of at most `2^50`, rounding the
`double` product to `k` decimals gives back the raw value. -/
theorem scaledDigits_neg_scaler (v : Int) (k : Nat) (pw : Dbl) (hv : v.natAbs ≤ 2 ^ 50)
    (hp : |pw.toRat - 1 / (10 : ℚ) ^ k| ≤ 1 / (10 : ℚ) ^ k / 2 ^ 52) :
    scaledDigits k ((Dbl.ofInt v).mul pw) = v.natAbs := by
  apply scaledDigits_eq
  have ha : (Dbl.ofInt v).toRat = v.natAbs :=
    ofInt_toRat v (le_trans hv (Nat.pow_le_pow_right (by norm_num) (by norm_num)))
  have hx := mul_error (Dbl.ofInt v) pw
  rw [ha] at hx
  set T : ℚ := (10 : ℚ) ^ k with hT
  set V : ℚ := (v.natAbs : ℚ) with hV
  set p : ℚ := pw.toRat with hpdef
  set x : ℚ := ((Dbl.ofInt v).mul pw).toRat with hxdef
  have hTpos : 0 < T := by positivity
  have hV0 : 0 ≤ V := by positivity
  have hVle : V ≤ 2 ^ 50 := by
    have h2 : ((v.natAbs : ℕ) : ℚ) ≤ ((2 ^ 50 : ℕ) : ℚ) := by exact_mod_cast hv
    push_cast at h2
    exact h2
  rw [abs_le] at hp hx
  -- the power, scaled back, is within 2^-52 of 1
  have hp1 : p * T ≤ 1 + 1 / 2 ^ 52 := by
    have : p ≤ 1 / T + 1 / T / 2 ^ 52 := by linarith [hp.2]
    calc p * T ≤ (1 / T + 1 / T / 2 ^ 52) * T := mul_le_mul_of_nonneg_right this hTpos.le
      _ = 1 + 1 / 2 ^ 52 := by field_simp; ring
  have hp2 : 1 - 1 / 2 ^ 52 ≤ p * T := by
    have : 1 / T - 1 / T / 2 ^ 52 ≤ p := by linarith [hp.1]
    calc 1 - 1 / 2 ^ 52 = (1 / T - 1 / T / 2 ^ 52) * T := by field_simp; ring
      _ ≤ p * T := mul_le_mul_of_nonneg_right this hTpos.le
  have hq1 : V * (p * T) ≤ V * (1 + 1 / 2 ^ 52) := mul_le_mul_of_nonneg_left hp1 hV0
  have hq2 : V * (1 - 1 / 2 ^ 52) ≤ V * (p * T) := mul_le_mul_of_nonneg_left hp2 hV0
  -- the product, scaled back, is within 2^-53 of that
  have hx1 : x * T ≤ V * (p * T) * (1 + 1 / 2 ^ 53) := by
    have : x ≤ V * p + V * p / 2 ^ 53 := by linarith [hx.2]
    calc x * T ≤ (V * p + V * p / 2 ^ 53) * T := mul_le_mul_of_nonneg_right this hTpos.le
      _ = V * (p * T) * (1 + 1 / 2 ^ 53) := by ring
  have hx2 : V * (p * T) * (1 - 1 / 2 ^ 53) ≤ x * T := by
    have : V * p - V * p / 2 ^ 53 ≤ x := by linarith [hx.1]
    calc V * (p * T) * (1 - 1 / 2 ^ 53) = (V * p - V * p / 2 ^ 53) * T := by ring
      _ ≤ x * T := mul_le_mul_of_nonneg_right this hTpos.le
  have hu : x * T ≤ V * (1 + 1 / 2 ^ 52) * (1 + 1 / 2 ^ 53) :=
    le_trans hx1 (mul_le_mul_of_nonneg_right hq1 (by norm_num))
  have hl : V * (1 - 1 / 2 ^ 52) * (1 - 1 / 2 ^ 53) ≤ x * T :=
    le_trans (mul_le_mul_of_nonneg_right hq2 (by norm_num)) hx2
  have hc1 : V * ((1 + 1 / 2 ^ 52) * (1 + 1 / 2 ^ 53) - 1) < 1 / 2 :=
    lt_of_le_of_lt (mul_le_mul_of_nonneg_right hVle (by norm_num)) (by norm_num)
  have hc2 : V * (1 - (1 - 1 / 2 ^ 52) * (1 - 1 / 2 ^ 53)) < 1 / 2 :=
    lt_of_le_of_lt (mul_le_mul_of_nonneg_right hVle (by norm_num)) (by norm_num)
  rw [abs_lt]
  constructor <;> nlinarith

/-- With an exact power of ten and `|v| * 10^s` of at most 53 bits, the `double` product is
exactly `|v| * 10^s`. -/
theorem scaledDigits_nonneg_scaler (v : Int) (t : Nat) (pw : Dbl)
    (hpw : 10 ^ t ≤ 2 ^ 53 → pw.toRat = ((10 ^ t : ℕ) : ℚ))
    (hv : v.natAbs * 10 ^ t ≤ 2 ^ 53) :
    scaledDigits 0 ((Dbl.ofInt v).mul pw) = v.natAbs * 10 ^ t := by
  apply scaledDigits_eq
  have hpos : 0 < 10 ^ t := by positivity
  have hV : v.natAbs ≤ 2 ^ 53 := le_trans (Nat.le_mul_of_pos_right _ hpos) hv
  have ha : (Dbl.ofInt v).toRat = v.natAbs := ofInt_toRat v hV
  have hprod : (Dbl.ofInt v).toRat * pw.toRat = ((v.natAbs * 10 ^ t : ℕ) : ℚ) := by
    rcases Nat.eq_zero_or_pos v.natAbs with h0 | hpos'
    · rw [ha, h0]; simp
    · have h10 : 10 ^ t ≤ 2 ^ 53 := le_trans (Nat.le_mul_of_pos_left _ hpos') hv
      rw [ha, hpw h10]
      push_cast
      ring
  rw [mul_exact _ _ _ hprod hv]
  simp

theorem zpow_ten_neg (s : Int) (hs : s < 0) :
    (10 : ℚ) ^ s = 1 / (10 : ℚ) ^ (-s).toNat := by
  have h : ((-s).toNat : ℤ) = -s := Int.toNat_of_nonneg (by omega)
  rw [one_div, ← zpow_natCast, ← zpow_neg, h, neg_neg]

theorem zpow_ten_nonneg (s : Int) (hs : 0 ≤ s) :
    (10 : ℚ) ^ s = ((10 ^ s.toNat : ℕ) : ℚ) := by
  have h : (s.toNat : ℤ) = s := Int.toNat_of_nonneg hs
  push_cast
  rw [← zpow_natCast, h]

/-- The correctly rounded power is accurate in the sense of `pow10_accurate`. -/
theorem pow10_nearest_accurate : pow10_accurate pow10_nearest := by
  intro s _ _
  refine ⟨?_, ?_, ?_⟩
  · unfold pow10_nearest
    split_ifs <;> exact roundRat_neg _ _ _
  · have hpos : (0 : ℚ) < (10 : ℚ) ^ s := zpow_pos (by norm_num) s
    have hle : (10 : ℚ) ^ s / 2 ^ 53 ≤ (10 : ℚ) ^ s / 2 ^ 52 :=
      div_le_div_of_nonneg_left hpos.le (by norm_num) (by norm_num)
    refine le_trans ?_ hle
    by_cases hs : s < 0
    · have h := roundRat_error false 1 (10 ^ (-s).toNat) (by positivity)
      simp only [pow10_nearest, hs, if_true]
      rw [zpow_ten_neg s hs]
      push_cast at h
      exact h
    · have h := roundRat_error false (10 ^ s.toNat) 1 (by norm_num)
      simp only [pow10_nearest, hs, if_false]
      rw [zpow_ten_nonneg s (by omega)]
      simpa using h
  · intro hs h
    have hs' : ¬ s < 0 := by omega
    simp only [pow10_nearest, hs', if_false]
    exact roundRat_exact false (10 ^ s.toNat) 1 (10 ^ s.toNat) (by norm_num) (by simp) h

theorem printf_f_exact (pw : Int → Dbl) (v s : Int) (hpw : pow10_accurate pw)
    (hi8 : -128 ≤ s ∧ s ≤ 127) (hneg : s < 0 → v.natAbs ≤ 2 ^ 50)
    (hpos : 0 ≤ s → v.natAbs * 10 ^ s.toNat ≤ 2 ^ 53) :
    printf_f (if -s < 0 then (0 : Int) else -s).toNat ((Dbl.ofInt v).mul (pw s)) =
      decimal_fixed v s := by
  obtain ⟨hsgn, herr, hexact⟩ := hpw s hi8.1 hi8.2
  have hsign : ((Dbl.ofInt v).mul (pw s)).neg = decide (v < 0) := by
    rw [mul_neg, hsgn, Dbl.ofInt, roundRat_neg]
    simp
  unfold printf_f decimal_fixed
  rw [hsign]
  by_cases hs : s < 0
  · have h1 : ¬ (-s < 0) := by omega
    rw [zpow_ten_neg s hs] at herr
    rw [if_neg h1, if_pos hs, scaledDigits_neg_scaler v _ (pw s) (hneg hs) herr]
  · have h1 : (if -s < 0 then (0 : Int) else -s).toNat = 0 := by
      split_ifs <;> omega
    rw [h1, if_neg hs,
      scaledDigits_nonneg_scaler v s.toNat (pw s) (hexact (by omega)) (hpos (by omega))]

/-- In the ranges where `double` arithmetic is exact enough, the text the code renders is the
decimal text of `v * 10^s` with `max(0, -s)` fractional digits. -/
theorem scaled_number_exact (env : Env) (value : sml_value) (scaler_ptr : Option Int)
    (hpw : pow10_accurate env.pow10)
    (hi8 : -128 ≤ scaler_ptr.getD 0 ∧ scaler_ptr.getD 0 ≤ 127)
    (hneg : scaler_ptr.getD 0 < 0 → value.num.natAbs ≤ 2 ^ 50)
    (hpos : 0 ≤ scaler_ptr.getD 0 →
      value.num.natAbs * 10 ^ (scaler_ptr.getD 0).toNat ≤ 2 ^ 53) :
    scaled_number env value scaler_ptr = decimal_fixed value.num (scaler_ptr.getD 0) := by
  cases scaler_ptr with
  | none => exact printf_f_exact env.pow10 value.num 0 hpw hi8 hneg hpos
  | some sc => exact printf_f_exact env.pow10 value.num sc hpw hi8 hneg hpos

theorem integer_typed_branch (type : Nat) (h : integer_typed type = true) :
    ¬ type = SML_TYPE_OCTET_STRING ∧ ¬ type = SML_TYPE_BOOLEAN ∧
      (type &&& SML_TYPE_FIELD = SML_TYPE_INTEGER ∨ type &&& SML_TYPE_FIELD = SML_TYPE_UNSIGNED) := by
  have h3 : type &&& SML_TYPE_FIELD = SML_TYPE_INTEGER ∨
      type &&& SML_TYPE_FIELD = SML_TYPE_UNSIGNED := by
    simpa [integer_typed] using h
  refine ⟨?_, ?_, h3⟩
  · intro h0
    rw [h0] at h3
    revert h3
    decide
  · intro h0
    rw [h0] at h3
    revert h3
    decide

/-- The line of an integer-typed entry, piece by piece. -/
theorem entry_step_integer (env : Env) (entry : sml_list) (s : Streams) (value : sml_value)
    (p : String) (hv : entry.value = some value) (hint : integer_typed value.type = true)
    (hp : obis_code entry.obj_name = some p) :
    entry_step env entry s =
      some ⟨s.stdout ++ (p ++ scaled_number env value entry.scaler ++ "#" ++
        unit_text env entry.unit ++ "\n"), s.stderr⟩ := by
  obtain ⟨h1, h2, h3⟩ := integer_typed_branch value.type hint
  unfold entry_step unit_text
  rw [hv]
  simp only [hp]
  rw [if_neg h1, if_neg h2, if_pos h3]
  cases entry.unit with
  | none => simp [Streams.print, String.append_assoc]
  | some u =>
    rcases h : env.dlms_get_unit (u % 256) with _ | name <;>
      simp [h, Streams.print, String.append_assoc]

/-! ## properties of the callback and the opener -/

/-- C1 (as the code has it): for an integer-typed entry whose unit code is present and
resolves to a name, the printed line is the OBIS prefix, the scaled number, `#`, the unit
name and a newline: the `#` stands between the number and the unit, not after the unit. -/
theorem C1_integer_line_number_hash_unit (env : Env) (entry : sml_list) (s : Streams)
    (value : sml_value) (p : String) (u : Nat) (name : String)
    (hv : entry.value = some value) (hint : integer_typed value.type = true)
    (hp : obis_code entry.obj_name = some p) (hu : entry.unit = some u)
    (hname : env.dlms_get_unit (u % 256) = some name) :
    entry_step env entry s =
      some ⟨s.stdout ++ (p ++ scaled_number env value entry.scaler ++ "#" ++ name ++ "\n"),
        s.stderr⟩ := by
  rw [entry_step_integer env entry s value p hv hint hp, hu]
  simp only [unit_text, hname]

set_option maxRecDepth 100000 in
/-- C1 on the entry of the specification's scenario. -/
theorem C1_witness :
    entry_step demoEnv kwhEntry ⟨"", ""⟩ = some ⟨"1-0:1.8.0*255#123.45#kWh\n", ""⟩ :=
  (C1_integer_line_number_hash_unit demoEnv kwhEntry ⟨"", ""⟩ (intValue 0x64 12345)
    "1-0:1.8.0*255#" 30 "kWh" rfl (by decide) (by decide) rfl (by decide)).trans (by decide)

set_option maxRecDepth 100000 in
/-- C1, the scenario of the specification run on the code: the line ends in `#kWh`, it is not
`1-0:1.8.0*255#123.45kWh#`. -/
theorem C1_counterexample :
    (transport_receiver demoEnv false false demoFrame demoFrame.length ⟨"", ""⟩).stdout? =
      some "1-0:1.8.0*255#123.45#kWh\nact_sensor_time#42#\n" ∧
    (transport_receiver demoEnv false false demoFrame demoFrame.length ⟨"", ""⟩).stdout? ≠
      some "1-0:1.8.0*255#123.45kWh#\nact_sensor_time#42#\n" := by
  decide

/-- C2 (as the code has it): the number of an integer-typed entry with raw value `v` and
scale `s` (0 without a scaler, an 8-bit number otherwise) is computed in `double`. With a
libm whose `pow(10, s)` is accurate to `2^-52`, whenever `s < 0` and `|v| ≤ 2^50`, or `s ≥ 0`
and `|v| * 10^s ≤ 2^53`, the printed line carries exactly the decimal text of `v * 10^s`:
for `s ≥ 0` the integer `|v| * 10^s` without a fraction, for `s < 0` the integer part of
`|v| / 10^(-s)`, a point and exactly `-s` digits. -/
theorem C2_scaled_number_exact_within_double_precision (env : Env) (entry : sml_list)
    (s : Streams) (value : sml_value) (p : String)
    (hv : entry.value = some value) (hint : integer_typed value.type = true)
    (hp : obis_code entry.obj_name = some p)
    (hpw : pow10_accurate env.pow10)
    (hi8 : -128 ≤ entry.scaler.getD 0 ∧ entry.scaler.getD 0 ≤ 127)
    (hneg : entry.scaler.getD 0 < 0 → value.num.natAbs ≤ 2 ^ 50)
    (hpos : 0 ≤ entry.scaler.getD 0 →
      value.num.natAbs * 10 ^ (entry.scaler.getD 0).toNat ≤ 2 ^ 53) :
    entry_step env entry s =
      some ⟨s.stdout ++ (p ++ decimal_fixed value.num (entry.scaler.getD 0) ++ "#" ++
        unit_text env entry.unit ++ "\n"), s.stderr⟩ ∧
    (0 ≤ entry.scaler.getD 0 →
      decimal_fixed value.num (entry.scaler.getD 0) =
        (if value.num < 0 then "-" else "") ++
          toString (value.num.natAbs * 10 ^ (entry.scaler.getD 0).toNat)) ∧
    (entry.scaler.getD 0 < 0 →
      decimal_fixed value.num (entry.scaler.getD 0) =
        (if value.num < 0 then "-" else "") ++
          toString (value.num.natAbs / 10 ^ (-(entry.scaler.getD 0)).toNat) ++ ("." ++
          String.mk (fracDigits (-(entry.scaler.getD 0)).toNat value.num.natAbs)) ∧
      (fracDigits (-(entry.scaler.getD 0)).toNat value.num.natAbs).length =
        (-(entry.scaler.getD 0)).toNat) := by
  refine ⟨?_, ?_, ?_⟩
  · rw [entry_step_integer env entry s value p hv hint hp,
      scaled_number_exact env value entry.scaler hpw hi8 hneg hpos]
  · intro h
    have h1 : ¬ entry.scaler.getD 0 < 0 := by omega
    simp [decimal_fixed, fixedText, h1]
  · intro h
    have h1 : ¬ (-(entry.scaler.getD 0)).toNat = 0 := by omega
    refine ⟨?_, fracDigits_length _ _⟩
    simp [decimal_fixed, fixedText, h, h1]

set_option maxRecDepth 100000 in
/-- C2 on `v = 1234, s = -2` and on `v = 50, s = 1`, with a correctly rounding `pow`. -/
theorem C2_witness :
    entry_step demoEnv plainEntry ⟨"", ""⟩ = some ⟨"1-0:1.8.0*255#12.34#\n", ""⟩ ∧
    entry_step demoEnv tenfoldEntry ⟨"", ""⟩ = some ⟨"1-0:1.8.0*255#500#\n", ""⟩ :=
  ⟨((C2_scaled_number_exact_within_double_precision demoEnv plainEntry ⟨"", ""⟩
      (intValue 0x52 1234) "1-0:1.8.0*255#" rfl (by decide) (by decide) pow10_nearest_accurate
      (by decide) (by decide) (by decide)).1).trans (by decide),
    ((C2_scaled_number_exact_within_double_precision demoEnv tenfoldEntry ⟨"", ""⟩
      (intValue 0x62 50) "1-0:1.8.0*255#" rfl (by decide) (by decide) pow10_nearest_accurate
      (by decide) (by decide) (by decide)).1).trans (by decide)⟩

set_option maxRecDepth 100000 in
/-- C2, an unsigned 64-bit entry with raw value `2^53 + 1` and no scaler: the code prints
9007199254740992, while `v * 10^0` is 9007199254740993. -/
theorem C2_counterexample :
    entry_step demoEnv bigEntry ⟨"", ""⟩ = some ⟨"1-0:1.8.0*255#9007199254740992#\n", ""⟩ ∧
    decimal_fixed 9007199254740993 0 = "9007199254740993" ∧
    scaled_number demoEnv (intValue 0x68 9007199254740993) none ≠
      decimal_fixed 9007199254740993 0 := by
  decide

/-- C3: for a frame buffer of length `n ≥ 16` the callback gives the message parser exactly
the bytes from offset 8 on, `n - 16` of them: the frame without its first 8 and its last 8
bytes, so that header, parser input and trailer put together are the frame again. -/
theorem C3_parser_gets_frame_without_envelope (env : Env) (sflag vflag : Bool)
    (buffer : List UInt8) (s : Streams) (h : 16 ≤ buffer.length) :
    parser_input buffer buffer.length = some ((buffer.drop 8).take (buffer.length - 16)) ∧
    transport_receiver env sflag vflag buffer buffer.length s =
      transport_receiver_file env sflag vflag
        (env.sml_file_parse ((buffer.drop 8).take (buffer.length - 16))) s ∧
    ((buffer.drop 8).take (buffer.length - 16)).length = buffer.length - 16 ∧
    (buffer.take 8).length = 8 ∧ (buffer.drop (buffer.length - 8)).length = 8 ∧
    buffer.take 8 ++ (buffer.drop 8).take (buffer.length - 16) ++
      buffer.drop (buffer.length - 8) = buffer := by
  have hin : parser_input buffer buffer.length =
      some ((buffer.drop 8).take (buffer.length - 16)) := by
    unfold parser_input
    simp only [h, if_true]
    rw [if_pos (by omega)]
  refine ⟨hin, ?_, ?_, ?_, ?_, ?_⟩
  · simp [transport_receiver, hin]
  · simp only [List.length_take, List.length_drop]; omega
  · simp only [List.length_take]; omega
  · simp only [List.length_drop]; omega
  · have h1 : buffer.drop (buffer.length - 8) = (buffer.drop 8).drop (buffer.length - 16) := by
      rw [List.drop_drop]
      congr 1
      omega
    rw [h1, List.append_assoc, List.take_append_drop, List.take_append_drop]

/-- C3 on an 18-byte frame: the parser gets bytes 9 and 10. -/
theorem C3_witness :
    16 ≤ demoFrame.length ∧ parser_input demoFrame demoFrame.length = some [9, 10] :=
  ⟨by decide, (C3_parser_gets_frame_without_envelope demoEnv false false demoFrame ⟨"", ""⟩
    (by decide)).1⟩

/-- C4: for every entry that is printed (value present, of octet-string, boolean, signed or
unsigned integer type) the line starts with `A-B:C.D.E*F#`, where `A..F` are the first six
bytes of the object name in their order, each written as a decimal number below 256;
the prefix is the same whatever the type. -/
theorem C4_obis_code_starts_every_line (env : Env) (entry : sml_list) (s : Streams)
    (value : sml_value) (a b c d e f : UInt8) (rest : List UInt8)
    (hv : entry.value = some value) (hp : printable value.type = true)
    (hn : entry.obj_name = some ⟨a :: b :: c :: d :: e :: f :: rest⟩) :
    (∃ tail, entry_step env entry s =
      some ⟨s.stdout ++ (toString a.toNat ++ "-" ++ toString b.toNat ++ ":" ++ toString c.toNat ++
        "." ++ toString d.toNat ++ "." ++ toString e.toNat ++ "*" ++ toString f.toNat ++ "#") ++ tail,
        s.stderr⟩) ∧
    a.toNat < 256 ∧ b.toNat < 256 ∧ c.toNat < 256 ∧ d.toNat < 256 ∧ e.toNat < 256 ∧
      f.toNat < 256 := by
  refine ⟨?_, a.val.isLt, b.val.isLt, c.val.isLt, d.val.isLt, e.val.isLt, f.val.isLt⟩
  apply entry_step_printable env entry s value _ hv hp
  rw [hn, obis_code_six]

/-- C4 on a boolean entry named 1-0:1.8.0*255. -/
theorem C4_witness :
    ∃ tail, entry_step demoEnv boolEntry ⟨"", ""⟩ =
      some ⟨"" ++ (toString (1 : UInt8).toNat ++ "-" ++ toString (0 : UInt8).toNat ++ ":" ++
        toString (1 : UInt8).toNat ++ "." ++ toString (8 : UInt8).toNat ++ "." ++
        toString (0 : UInt8).toNat ++ "*" ++ toString (255 : UInt8).toNat ++ "#") ++ tail, ""⟩ :=
  (C4_obis_code_starts_every_line demoEnv boolEntry ⟨"", ""⟩
    { type := SML_TYPE_BOOLEAN, boolean := some 1, bytes := ⟨[]⟩, num := 0 } 1 0 1 8 0 255 []
    rfl (by decide) rfl).1

/-- C5: in a measurement-list response (sensor time present, printed entries with an object
name of six bytes) an entry without a value adds no stdout line and does not stop the loop:
stdout grows by the lines of the entries that have a value, in order, followed by the
`act_sensor_time` line, and that is what the same list without the absent entries gives. -/
theorem C5_absent_value_is_skipped (env : Env) (sflag : Bool) (body : sml_get_list_response)
    (sec_index : Nat) (s : Streams) (ht : body.act_sensor_time = some ⟨some sec_index⟩)
    (hok : body.val_list.all entry_ok = true) :
    (message_step env sflag ⟨some ⟨some SML_MESSAGE_GET_LIST_RESPONSE, some body⟩⟩ s).stdout? =
      some (s.stdout ++ (concat ((body.val_list.filter fun e => e.value.isSome).map (entry_lines env))
        ++ ("act_sensor_time#" ++ toString sec_index ++ "#\n"))) ∧
    (message_step env sflag ⟨some ⟨some SML_MESSAGE_GET_LIST_RESPONSE,
        some { body with val_list := body.val_list.filter fun e => e.value.isSome }⟩⟩ s).stdout? =
      (message_step env sflag ⟨some ⟨some SML_MESSAGE_GET_LIST_RESPONSE, some body⟩⟩ s).stdout? := by
  have h1 : message_ok ⟨some ⟨some SML_MESSAGE_GET_LIST_RESPONSE, some body⟩⟩ = true := by
    simp [message_ok, response_ok, ht, hok]
  have h2 : message_ok ⟨some ⟨some SML_MESSAGE_GET_LIST_RESPONSE,
      some { body with val_list := body.val_list.filter fun e => e.value.isSome }⟩⟩ = true := by
    simp only [message_ok, response_ok, ht, if_true, Bool.and_eq_true]
    exact ⟨rfl, all_ok_filter _ _ hok⟩
  obtain ⟨e1, he1⟩ := message_step_of_ok env sflag _ s h1
  obtain ⟨e2, he2⟩ := message_step_of_ok env sflag _ s h2
  rw [he1, he2]
  cases sflag <;>
    simp [is_list_response, Outcome.stdout?, message_block, sensor_time_line, ht,
      concat_filter_present]

/-- C5 on a response with an absent-value entry between printed ones. -/
theorem C5_witness :
    (message_step demoEnv false
      ⟨some ⟨some SML_MESSAGE_GET_LIST_RESPONSE, some mixedBody⟩⟩ ⟨"", ""⟩).stdout? =
      some ("" ++ (concat ((mixedBody.val_list.filter fun e => e.value.isSome).map
        (entry_lines demoEnv)) ++ ("act_sensor_time#" ++ toString 7 ++ "#\n"))) :=
  (C5_absent_value_is_skipped demoEnv false mixedBody 7 ⟨"", ""⟩ rfl (by decide)).1

/-- C6: in single-shot mode (not verbose), when the file has a measurement-list response, the
callback exits with status 0 right after the `act_sensor_time` line of the first one:
stdout grows by exactly that response's block, whatever follows it in the file. -/
theorem C6_single_shot_exits_after_first_response (env : Env) (pre : List sml_message)
    (message : sml_message) (post : List sml_message) (s : Streams)
    (hpre : pre.all (fun p => message_ok p && !is_list_response p) = true)
    (hok : message_ok message = true) (hlr : is_list_response message = true) :
    ∃ err, transport_receiver_file env true false ⟨pre ++ message :: post⟩ s =
      .exited 0 ⟨s.stdout ++ message_block env message, s.stderr ++ err⟩ := by
  simpa [transport_receiver_file] using
    messages_loop_single_shot env pre message post s hpre hok hlr

/-- C6 on a file with two measurement-list responses after a message of another kind. -/
theorem C6_witness :
    ∃ err, transport_receiver_file demoEnv true false
      ⟨[otherMessage] ++ listResponse [plainEntry] 8 :: [listResponse [plainEntry] 9]⟩ ⟨"", ""⟩ =
      .exited 0 ⟨"" ++ message_block demoEnv (listResponse [plainEntry] 8), "" ++ err⟩ :=
  C6_single_shot_exits_after_first_response demoEnv [otherMessage] (listResponse [plainEntry] 8)
    [listResponse [plainEntry] 9] ⟨"", ""⟩ (by decide) (by decide) (by decide)

/-- C7: in continuous, non-verbose mode the callback returns, and stdout has grown by the
blocks of the sub-messages in file order: for a measurement-list response the lines of its
entries in list order and then one line `act_sensor_time#<counter>#`, nothing for a
sub-message of another kind. -/
theorem C7_continuous_output_is_blocks_in_order (env : Env) (file : sml_file) (s : Streams)
    (h : file.messages.all message_ok = true) :
    (∃ err, transport_receiver_file env false false file s =
      .returned ⟨s.stdout ++ concat (file.messages.map (message_block env)), s.stderr ++ err⟩) ∧
    (∀ m ∈ file.messages, is_list_response m = false → message_block env m = "") ∧
    (∀ m ∈ file.messages, is_list_response m = true → ∃ body sec_index,
      message_block env m = concat (body.val_list.map (entry_lines env)) ++
        ("act_sensor_time#" ++ toString sec_index ++ "#\n") ∧
      m.message_body = some ⟨some SML_MESSAGE_GET_LIST_RESPONSE, some body⟩ ∧
      body.act_sensor_time = some ⟨some sec_index⟩) := by
  refine ⟨?_, ?_, ?_⟩
  · simpa [transport_receiver_file] using messages_loop_continuous env file.messages s h
  · intro m _ hm
    obtain ⟨mb⟩ := m
    cases mb with
    | none => rfl
    | some mb =>
      obtain ⟨tag, data⟩ := mb
      cases tag with
      | none => cases data <;> rfl
      | some tag =>
        have : ¬ tag = SML_MESSAGE_GET_LIST_RESPONSE := by simpa [is_list_response] using hm
        cases data <;> simp [message_block, this]
  · intro m hmem hm
    have hmok : message_ok m = true := (List.all_eq_true.mp h) m hmem
    obtain ⟨mb⟩ := m
    cases mb with
    | none => simp [is_list_response] at hm
    | some mb =>
      obtain ⟨tag, data⟩ := mb
      cases tag with
      | none => simp [is_list_response] at hm
      | some tag =>
        have htag : tag = SML_MESSAGE_GET_LIST_RESPONSE := by simpa [is_list_response] using hm
        subst htag
        cases data with
        | none => simp [message_ok] at hmok
        | some body =>
          simp only [message_ok, if_true, response_ok, Bool.and_eq_true] at hmok
          obtain ⟨t, n⟩ : ∃ t, body.act_sensor_time = some t ∧ t.sec_index.isSome = true := by
            cases ha : body.act_sensor_time with
            | none => simp [ha] at hmok
            | some t => exact ⟨t, rfl, by simpa [ha] using hmok.1⟩
          obtain ⟨ha, hs⟩ := n
          obtain ⟨n, hn⟩ := Option.isSome_iff_exists.mp hs
          refine ⟨body, n, ?_, rfl, ?_⟩
          · simp [message_block, sensor_time_line, ha, hn]
          · rw [ha]
            obtain ⟨si⟩ := t
            simp only at hn
            rw [hn]

/-- C7 on a file with a message of another kind and two measurement-list responses. -/
theorem C7_witness :
    ∃ err, transport_receiver_file demoEnv false false twoResponses ⟨"", ""⟩ =
      .returned ⟨"" ++ concat (twoResponses.messages.map (message_block demoEnv)), "" ++ err⟩ :=
  (C7_continuous_output_is_blocks_in_order demoEnv twoResponses ⟨"", ""⟩ (by decide)).1

/-- C8: an entry whose value is present but of none of the printed types writes nothing,
neither to stdout nor to stderr, and the loop goes on with the next entry. -/
theorem C8_other_types_are_silent (env : Env) (entry : sml_list) (next : List sml_list)
    (s : Streams) (value : sml_value) (hv : entry.value = some value)
    (hp : printable value.type = false) :
    entry_step env entry s = some s ∧
    val_list_loop env (entry :: next) s = val_list_loop env next s := by
  have h0 : entry_step env entry s = some s := by
    unfold entry_step
    rw [hv]
    simp only [printable, Bool.or_eq_false_iff, beq_eq_false_iff_ne, ne_eq] at hp
    obtain ⟨⟨⟨h1, h2⟩, h3⟩, h4⟩ := hp
    simp [h1, h2, h3, h4]
  exact ⟨h0, by simp [val_list_loop, h0]⟩

/-- C8 on an entry whose value is a list. -/
theorem C8_witness :
    entry_step demoEnv listTypedEntry ⟨"out", "err"⟩ = some ⟨"out", "err"⟩ ∧
    val_list_loop demoEnv [listTypedEntry, plainEntry] ⟨"out", "err"⟩ =
      val_list_loop demoEnv [plainEntry] ⟨"out", "err"⟩ :=
  C8_other_types_are_silent demoEnv listTypedEntry [plainEntry] ⟨"out", "err"⟩
    { type := 0x70, boolean := none, bytes := ⟨[]⟩, num := 0 } rfl (by decide)

/-- C9: with the path "-" the function returns 0 (standard input) and makes no device call at
all; with any other path it returns a negative number exactly when `open` fails, and then
`open` is the only call it made (no ioctl, no tcgetattr, no tcsetattr). -/
theorem C9_stdin_and_failed_open_configure_nothing (pf : Platform) (os : Os) :
    serial_port_open pf os "-" = ⟨0, [], ""⟩ ∧
    ∀ device : String, device ≠ "-" →
      ((serial_port_open pf os device).ret < 0 ↔
        os.sys_open device (pf.O_RDWR ||| pf.O_NOCTTY ||| pf.O_NONBLOCK) < 0) ∧
      (os.sys_open device (pf.O_RDWR ||| pf.O_NOCTTY ||| pf.O_NONBLOCK) < 0 →
        (serial_port_open pf os device).calls =
          [.sys_open device (pf.O_RDWR ||| pf.O_NOCTTY ||| pf.O_NONBLOCK)] ∧
        (serial_port_open pf os device).calls.all (fun c => !c.configures) = true) ∧
      (¬ os.sys_open device (pf.O_RDWR ||| pf.O_NOCTTY ||| pf.O_NONBLOCK) < 0 →
        (serial_port_open pf os device).ret =
          os.sys_open device (pf.O_RDWR ||| pf.O_NOCTTY ||| pf.O_NONBLOCK)) := by
  refine ⟨by simp [serial_port_open], ?_⟩
  intro device hd
  by_cases hf : os.sys_open device (pf.O_RDWR ||| pf.O_NOCTTY ||| pf.O_NONBLOCK) < 0
  · simp [serial_port_open, hd, hf, DeviceCall.configures]
  · simp [serial_port_open, hd, hf]

/-- C9 on "-" and on a path that cannot be opened. -/
theorem C9_witness :
    serial_port_open linux demoOs "-" = ⟨0, [], ""⟩ ∧
    (serial_port_open linux demoOs "/dev/none").ret = -1 ∧
    (serial_port_open linux demoOs "/dev/none").calls = [.sys_open "/dev/none" 0o4402] :=
  ⟨(C9_stdin_and_failed_open_configure_nothing linux demoOs).1, by decide,
    (((C9_stdin_and_failed_open_configure_nothing linux demoOs).2 "/dev/none" (by decide)).2.1
      (by decide)).1⟩

/-- C10: the callback is defined (no read through an absent pointer, no read past the end of
an object name) on every parsed file in which each sub-message has a body with a tag, each
measurement-list response has its sensor-time field, and each entry with a printable value
has an object name of six bytes or more, whatever the value, scaler and unit of the entries
are; in continuous mode it is defined on no other file; and a measurement-list response
without its sensor-time field makes it undefined, whatever its entries are. -/
theorem C10_defined_exactly_on_well_formed_files (env : Env) (sflag vflag : Bool)
    (file : sml_file) (s : Streams) :
    (file.messages.all message_ok = true →
      transport_receiver_file env sflag vflag file s ≠ .undefined) ∧
    (sflag = false →
      (transport_receiver_file env sflag vflag file s ≠ .undefined ↔
        file.messages.all message_ok = true)) ∧
    (∀ (message : sml_message) (body : sml_get_list_response),
      message.message_body = some ⟨some SML_MESSAGE_GET_LIST_RESPONSE, some body⟩ →
      body.act_sensor_time = none → message_step env sflag message s = .undefined) := by
  refine ⟨?_, ?_, ?_⟩
  · intro h
    exact messages_loop_defined env sflag file.messages _ h
  · intro hs
    subst hs
    constructor
    · intro hdef
      by_contra hno
      have hno2 : file.messages.all message_ok = false := by simpa using hno
      exact hdef (messages_loop_undefined env file.messages _ hno2)
    · intro h
      exact messages_loop_defined env false file.messages _ h
  · intro message body hm ha
    apply message_step_of_not_ok
    obtain ⟨mb⟩ := message
    simp only at hm
    simp [message_ok, hm, response_ok, ha]

/-- C10 on a well-formed file, and on an empty response without sensor time. -/
theorem C10_witness :
    transport_receiver_file demoEnv false false twoResponses ⟨"", ""⟩ ≠ .undefined ∧
    message_step demoEnv false
      ⟨some ⟨some SML_MESSAGE_GET_LIST_RESPONSE, some ⟨[], none⟩⟩⟩ ⟨"", ""⟩ = .undefined :=
  ⟨(C10_defined_exactly_on_well_formed_files demoEnv false false twoResponses ⟨"", ""⟩).1
      (by decide),
    (C10_defined_exactly_on_well_formed_files demoEnv false false twoResponses ⟨"", ""⟩).2.2
      _ ⟨[], none⟩ rfl rfl⟩

end SmlServerTime
